import Mathlib

/-!
Verification of the streaming cursor core of a ClickHouse client library
(`src/cursors/raw.rs` and `src/cursors/row.rs`).

Bytes are modelled as `List Nat`. The external header parser and row
decoder (crate `clickhouse_types` / module `rowbinary`) are abstract
function parameters, as the spec treats them as collaborators reached
through narrow interfaces. The asynchronous chunk stream is modelled as
a list of items, each either a chunk or a stream error; an exhausted
list is end-of-stream.
-/

namespace CHCursor

/-- One unit of bytes delivered by the transport stream
(`data` is post-decompression payload, `netSize` the wire size). -/
structure Chunk where
  data : List Nat
  netSize : Nat
deriving DecidableEq, Repr

/-- Error type of the external header parser
(mirrors `clickhouse_types::error::TypesError`): a distinguished
"not enough data" signal versus any other structural failure. -/
inductive TypesErr where
  | notEnoughData (needed : Nat)
  | other (msg : String)
deriving DecidableEq, Repr

/-- A parsed column description (name and declared type). -/
structure Column where
  name : String
  typ : String
deriving DecidableEq, Repr

/-- The library error type (the variants relevant to the cursor core of
`error.rs`): `notEnoughData`, `badResponse`, `invalidColumnsHeader`
wrapping the parser's structural error, and `custom` standing for the
remaining variants (network errors, row decode failures, ...). -/
inductive Error where
  | notEnoughData
  | badResponse (msg : String)
  | invalidColumnsHeader (err : TypesErr)
  | custom (msg : String)
deriving DecidableEq, Repr

/-- Modelled from the spec: `RowMetadata` (module `row_metadata`, not under
`src/`) is the validated column metadata built from the parsed header
columns ("Column Metadata: the parsed, validated description of the
result's columns"). Only its construction from the column list matters
to the claims, so it is the column list itself. -/
structure RowMetadata where
  columns : List Column
deriving DecidableEq, Repr

/-- `RowMetadata::new_for_cursor::<T>(columns)` (raw-cursor path). -/
def RowMetadata.newForCursor (cols : List Column) : RowMetadata := ⟨cols⟩

/-- `RowMetadata::new::<T>(columns)` (row-cursor path). -/
def RowMetadata.new (cols : List Column) : RowMetadata := ⟨cols⟩

instance {ε α : Type} [DecidableEq ε] [DecidableEq α] : DecidableEq (Except ε α) := fun x y =>
  match x, y with
  | .ok a, .ok b =>
      if h : a = b then .isTrue (by rw [h]) else .isFalse (by intro hc; cases hc; exact h rfl)
  | .error a, .error b =>
      if h : a = b then .isTrue (by rw [h]) else .isFalse (by intro hc; cases hc; exact h rfl)
  | .ok _, .error _ => .isFalse (by intro h; cases h)
  | .error _, .ok _ => .isFalse (by intro h; cases h)

/-- An item yielded by the chunk stream: a chunk or a transport error. -/
abbrev StreamItem := Except Error Chunk

/-- Abstract interface of `parse_rbwnat_columns_header`: on success it
returns the parsed columns together with the length of the *unconsumed*
suffix of its input (the Rust function advances the slice; the caller
reads the leftover via `slice.len()`). -/
abbrev HeaderParse := List Nat → Except TypesErr (List Column × Nat)

/-- `RawCursorState` of `raw.rs`: `Waiting` holds the (here: already
decided) response future and the validation flag; `Loading` holds the
remaining chunk stream plus the two byte counters. -/
inductive RawCursorState where
  | waiting (future : Except Error (List StreamItem)) (validation : Bool)
  | loading (chunks : List StreamItem) (netSize : Nat) (dataSize : Nat)
deriving DecidableEq, Repr

/-- `RawCursor` of `raw.rs`: the state plus the optional row metadata. -/
structure RawCursor where
  state : RawCursorState
  meta : Option RowMetadata
deriving DecidableEq, Repr

/-- Result of `RawCursor::parse_row_metadata` (struct `ParsedRowMetadata`
in `raw.rs`). `remainingData` is the payload trailing the header inside
the accumulated bytes, if any. -/
structure ParsedRowMetadata where
  rowMetadata : RowMetadata
  netSize : Nat
  dataSize : Nat
  remainingData : Option (List Nat)
deriving DecidableEq, Repr

/-- The loop of `RawCursor::parse_row_metadata` (`raw.rs` lines 143-182):
pull a chunk (end of stream is a fatal `BadResponse`), account its
sizes, append it to the accumulation buffer, and try to parse the
columns header from the accumulated bytes. On success the unconsumed
suffix becomes `remainingData`; on the parser's "not enough data" the
loop continues with the next chunk; any other parser error is returned
as `InvalidColumnsHeader`. -/
def parseRowMetadataGo (p : HeaderParse) (acc : List Nat) (netSize dataSize : Nat) :
    List StreamItem → Except Error (ParsedRowMetadata × List StreamItem)
  | [] => .error (.badResponse "Could not read columns header")
  | .error e :: _ => .error e
  | .ok c :: rest =>
    let netSize := netSize + c.netSize
    let dataSize := dataSize + c.data.length
    let acc := acc ++ c.data
    match p acc with
    | .ok (cols, remaining) =>
        .ok (⟨RowMetadata.newForCursor cols, netSize, dataSize,
              if remaining > 0 then some (acc.drop (acc.length - remaining)) else none⟩,
             rest)
    | .error (.notEnoughData _) => parseRowMetadataGo p acc netSize dataSize rest
    | .error e => .error (.invalidColumnsHeader e)

/-- `RawCursor::parse_row_metadata` with an initially empty accumulator
and zeroed counters. -/
def parseRowMetadata (p : HeaderParse) (chunks : List StreamItem) :
    Except Error (ParsedRowMetadata × List StreamItem) :=
  parseRowMetadataGo p [] 0 0 chunks

/-- The `Loading` arm of `RawCursor::poll_next` (`raw.rs` lines 74-84):
pop the next stream item, accounting sizes on a successful chunk. -/
def rawNextLoading (meta : Option RowMetadata) :
    List StreamItem → Nat → Nat → Except Error (Option (List Nat)) × RawCursor
  | [], n, d => (.ok none, ⟨.loading [] n d, meta⟩)
  | .error e :: rest, n, d => (.error e, ⟨.loading rest n d, meta⟩)
  | .ok c :: rest, n, d =>
      (.ok (some c.data), ⟨.loading rest (n + c.netSize) (d + c.data.length), meta⟩)

/-- `RawCursor::next` / `poll_next` (`raw.rs` lines 56-132), as a step
function from cursor to (result, new cursor). In `Waiting`, the resolved
future is inspected (`poll_resolve`): a failed future still installs an
empty `Loading` state before the error is returned (fused behavior);
with validation the columns header is discovered first and any bytes
trailing it are returned as the first chunk. -/
def RawCursor.next (p : HeaderParse) (cur : RawCursor) :
    Except Error (Option (List Nat)) × RawCursor :=
  match cur.state with
  | .loading chunks n d => rawNextLoading cur.meta chunks n d
  | .waiting (.error e) _ => (.error e, ⟨.loading [] 0 0, cur.meta⟩)
  | .waiting (.ok chunks) false => rawNextLoading cur.meta chunks 0 0
  | .waiting (.ok chunks) true =>
      match parseRowMetadataGo p [] 0 0 chunks with
      | .error e => (.error e, cur)
      | .ok (pm, rest) =>
          match pm.remainingData with
          | some dta =>
              (.ok (some dta), ⟨.loading rest pm.netSize pm.dataSize, some pm.rowMetadata⟩)
          | none => rawNextLoading (some pm.rowMetadata) rest pm.netSize pm.dataSize

/-- `RawCursor::received_bytes` (`raw.rs` lines 185-190). -/
def RawCursorState.receivedBytes : RawCursorState → Nat
  | .loading _ n _ => n
  | .waiting _ _ => 0

/-- `RawCursor::decoded_bytes` (`raw.rs` lines 192-197). -/
def RawCursorState.decodedBytes : RawCursorState → Nat
  | .loading _ _ d => d
  | .waiting _ _ => 0

/-! ## Row cursor (`row.rs`)

`RowCursor` owns a `RawCursor` created with `RawCursor::new(response)`
(plain mode: no header handling inside the raw cursor), a rolling decode
buffer, and the validation mode (`Enabled(RowMetadata)` / `Disabled`,
here `Option RowMetadata`). The row decoders `deserialize_rbwnat` and
`deserialize_row_binary` (module `rowbinary`) are abstract parameters:
given the unconsumed bytes they return a value together with the length
of the unconsumed suffix left after the row (the Rust functions advance
the slice, and the caller commits via `set_remaining(slice.len())`), or
`Error::NotEnoughData` as a retry signal, or a fatal error. -/

/-- Modelled from the spec: the rolling decode buffer `BytesExt`
(module `bytes_ext`, not under `src/`) is "an append-accumulate byte
buffer with a logical remaining view"; it is represented by its
unconsumed suffix. `set_remaining(r)` keeps the last `r` bytes. -/
def commitBuf (bytes : List Nat) (remaining : Nat) : List Nat :=
  bytes.drop (bytes.length - remaining)

/-- The row cursor (`RowCursor<T>` of `row.rs`): the raw cursor state
(always plain mode), the unconsumed buffer bytes, and the validation
mode. `T` is the row type. -/
structure RowCursor (T : Type) where
  raw : RawCursorState
  bytes : List Nat
  vmeta : Option RowMetadata
deriving DecidableEq, Repr

/-- A row decoder, `deserialize_rbwnat` specialized to a metadata value
or `deserialize_row_binary`: returns the decoded value and the length of
the unconsumed suffix, or an `Error` (`Error.notEnoughData` is the retry
signal). -/
abbrev RowDecode (T : Type) := List Nat → Except Error (T × Nat)

/-- Outcome of one decode attempt at the top of the `RowCursor::next`
loop (`row.rs` lines 90-111). -/
inductive TryRes (T : Type) where
  | row (v : T) (remaining : Nat)
  | needMore
  | fatal (e : Error)
deriving DecidableEq, Repr

/-- One decode attempt: skipped entirely when the buffer is empty
(`if self.bytes.remaining() > 0`); otherwise the decoder matching the
validation mode runs on the unconsumed bytes. -/
def tryDecode (decodeV : RowMetadata → RowDecode T) (decodePlain : RowDecode T)
    (vmeta : Option RowMetadata) (bytes : List Nat) : TryRes T :=
  if bytes.isEmpty then .needMore
  else
    match (match vmeta with
           | some m => decodeV m bytes
           | none => decodePlain bytes) with
    | .ok (v, remaining) => .row v remaining
    | .error .notEnoughData => .needMore
    | .error e => .fatal e

/-- The loop of `RowCursor::next` (`row.rs` lines 89-123) with the raw
cursor already in `Loading`: attempt to decode one row from the buffer;
on success commit the consumed length and return the row; on a fatal
error return it with the buffer untouched; on "not enough data" (or an
empty buffer) pull the next raw chunk — a chunk is appended and the loop
retries, end-of-stream with a non-empty buffer is `Error::NotEnoughData`,
end-of-stream with an empty buffer is end of results. -/
def rowLoop (decodeV : RowMetadata → RowDecode T) (decodePlain : RowDecode T)
    (vmeta : Option RowMetadata) :
    List Nat → List StreamItem → Nat → Nat → Except Error (Option T) × RowCursor T
  | bytes, items, n, d =>
    match tryDecode decodeV decodePlain vmeta bytes with
    | .row v remaining =>
        (.ok (some v), ⟨.loading items n d, commitBuf bytes remaining, vmeta⟩)
    | .fatal e => (.error e, ⟨.loading items n d, bytes, vmeta⟩)
    | .needMore =>
      match items with
      | [] =>
          if bytes.isEmpty then (.ok none, ⟨.loading [] n d, bytes, vmeta⟩)
          else (.error .notEnoughData, ⟨.loading [] n d, bytes, vmeta⟩)
      | .error e :: rest => (.error e, ⟨.loading rest n d, bytes, vmeta⟩)
      | .ok c :: rest =>
          rowLoop decodeV decodePlain vmeta
            (bytes ++ c.data) rest (n + c.netSize) (d + c.data.length)

/-- `RowCursor::next` (`row.rs` lines 85-124). When the raw cursor is
still `Waiting`, the decode attempt on buffered bytes happens before the
future is resolved; a failed future installs the fused empty `Loading`
state (via `RawCursor::poll_resolve`) before its error is returned. -/
def RowCursor.next (decodeV : RowMetadata → RowDecode T) (decodePlain : RowDecode T)
    (cur : RowCursor T) : Except Error (Option T) × RowCursor T :=
  match cur.raw with
  | .loading items n d => rowLoop decodeV decodePlain cur.vmeta cur.bytes items n d
  | .waiting fut v =>
    match tryDecode decodeV decodePlain cur.vmeta cur.bytes with
    | .row val remaining =>
        (.ok (some val), ⟨.waiting fut v, commitBuf cur.bytes remaining, cur.vmeta⟩)
    | .fatal e => (.error e, cur)
    | .needMore =>
      match fut with
      | .error e => (.error e, ⟨.loading [] 0 0, cur.bytes, cur.vmeta⟩)
      | .ok items => rowLoop decodeV decodePlain cur.vmeta cur.bytes items 0 0

/-- `RowCursor::received_bytes` delegates to the raw cursor. -/
def RowCursor.receivedBytes (cur : RowCursor T) : Nat :=
  cur.raw.receivedBytes

/-- `RowCursor::decoded_bytes` delegates to the raw cursor. -/
def RowCursor.decodedBytes (cur : RowCursor T) : Nat :=
  cur.raw.decodedBytes

/-- The header-discovery loop of `RowCursor::new` with validation enabled
(`row.rs` lines 33-67): pull a raw chunk (end of stream is a fatal
`BadResponse`, a stream error propagates), append it to the buffer, and
try to parse the columns header. A successfully parsed non-empty column
list commits the consumed bytes and yields the cursor; a successfully
parsed empty column list is a fatal `BadResponse`; "not enough data"
continues with the next chunk; any other parser error is
`InvalidColumnsHeader`. The counters account each pulled chunk. -/
def rowNewLoop (T : Type) (p : HeaderParse) :
    List Nat → Nat → Nat → List StreamItem → Except Error (RowCursor T)
  | _, _, _, [] => .error (.badResponse "Could not read columns header")
  | _, _, _, .error e :: _ => .error e
  | bytes, n, d, .ok c :: rest =>
    let n := n + c.netSize
    let d := d + c.data.length
    let bytes := bytes ++ c.data
    match p bytes with
    | .ok (cols, remaining) =>
        if cols.isEmpty then
          .error (.badResponse "Expected at least one column in the header")
        else
          .ok ⟨.loading rest n d, commitBuf bytes remaining,
               some (RowMetadata.new cols)⟩
    | .error (.notEnoughData _) => rowNewLoop T p bytes n d rest
    | .error e => .error (.invalidColumnsHeader e)

/-- `RowCursor::new` (`row.rs` lines 29-76): with validation disabled the
cursor is returned immediately with the raw cursor still `Waiting`; with
validation enabled the response future is resolved by the first
`raw.next()` (a failed future propagates its error) and the header
discovery loop runs. -/
def RowCursor.new (T : Type) (p : HeaderParse)
    (future : Except Error (List StreamItem)) (validation : Bool) :
    Except Error (RowCursor T) :=
  if validation then
    match future with
    | .error e => .error e
    | .ok items => rowNewLoop T p [] 0 0 items
  else
    .ok ⟨.waiting future false, [], none⟩

/-! ## Poll-level model of `RowCursor::next`

`RowCursor::next` suspends only inside `self.raw.next().await`, which is
`poll_fn` over `RawCursor::poll_next`; in `Loading` that is
`ready!(chunks.poll_next(cx))` *before* any counter update, so a
`Pending` poll of the underlying stream returns without touching any
cursor state. To reason about abandoning the operation mid-wait, the
polls of the underlying stream available during one invocation are an
explicit list of events; an empty list means the next poll would be
`Pending` (the suspension point at which the caller may abandon the
call). The cursor state here is the row cursor with the raw cursor in
`Loading`, the stream externalized. -/

/-- One ready poll result of the underlying chunk stream. -/
inductive StreamEv where
  | chunk (c : Chunk)
  | eos
  | failed (e : Error)
deriving DecidableEq, Repr

/-- Row-cursor state for the poll-level model: buffer, counters, and
validation mode (raw cursor in `Loading`, stream externalized). -/
structure RowCursorE (T : Type) where
  netSize : Nat
  dataSize : Nat
  bytes : List Nat
  vmeta : Option RowMetadata
deriving DecidableEq, Repr

/-- Result of polling the `RowCursor::next` future once to completion or
suspension. -/
inductive PollRes (T : Type) where
  | pending
  | done (r : Except Error (Option T))
deriving DecidableEq, Repr

/-- `RowCursor::next` at poll granularity: run the decode-attempt /
pull-chunk loop, consuming one stream event per pull, until a row, an
error, end-of-results, or suspension (`pending`, when the event supply
is exhausted) is reached. Returns the poll outcome, the cursor state at
that moment, and the unconsumed events. -/
def rowNextPoll (decodeV : RowMetadata → RowDecode T) (decodePlain : RowDecode T) :
    RowCursorE T → List StreamEv → PollRes T × RowCursorE T × List StreamEv
  | cur, evs =>
    match tryDecode decodeV decodePlain cur.vmeta cur.bytes with
    | .row v remaining =>
        (.done (.ok (some v)), { cur with bytes := commitBuf cur.bytes remaining }, evs)
    | .fatal e => (.done (.error e), cur, evs)
    | .needMore =>
      match evs with
      | [] => (.pending, cur, [])
      | .eos :: rest =>
          if cur.bytes.isEmpty then (.done (.ok none), cur, rest)
          else (.done (.error .notEnoughData), cur, rest)
      | .failed e :: rest => (.done (.error e), cur, rest)
      | .chunk c :: rest =>
          rowNextPoll decodeV decodePlain
            { cur with
                bytes := cur.bytes ++ c.data
                netSize := cur.netSize + c.netSize
                dataSize := cur.dataSize + c.data.length } rest

/-! ## Valid headers and concrete instances for witnesses -/

/-- A byte sequence `hdr` is a valid, self-terminating column header for
the parser `p`, yielding columns `cols`: the parser succeeds on any
extension of `hdr`, consuming exactly `hdr` and leaving the extension,
and reports "not enough data" on every strict prefix of `hdr`. -/
def ValidHeader (p : HeaderParse) (hdr : List Nat) (cols : List Column) : Prop :=
  (∀ rest : List Nat, p (hdr ++ rest) = .ok (cols, rest.length)) ∧
  (∀ pre : List Nat, pre <+: hdr → pre.length < hdr.length →
     ∃ m, p pre = .error (.notEnoughData m))

/-- Concatenation of the data of a list of chunks. -/
def flatData (cs : List Chunk) : List Nat :=
  (cs.map Chunk.data).flatten

/-- A concrete two-byte header parser used to instantiate theorems:
the header is the magic `[7, 9]`, declaring a single column. -/
def demoParse : HeaderParse := fun bs =>
  match bs with
  | [] => .error (.notEnoughData 2)
  | [_] => .error (.notEnoughData 1)
  | a :: b :: rest =>
      if a = 7 ∧ b = 9 then .ok ([⟨"id", "UInt64"⟩], rest.length)
      else .error (.other "bad magic")

/-- A concrete row decoder used to instantiate theorems: a row is two
bytes, decoded to their sum; a single byte is not enough data. -/
def demoDecode : RowDecode Nat := fun bs =>
  match bs with
  | [] => .error .notEnoughData
  | [_] => .error .notEnoughData
  | a :: b :: rest => .ok (a + b, rest.length)

/-- A decoder that always fails fatally, used for error-path witnesses. -/
def boomDecode : RowDecode Nat := fun _ => .error (.custom "boom")

/-- A metadata-aware decoder wrapping `demoDecode`. -/
def demoDecodeV : RowMetadata → RowDecode Nat := fun _ => demoDecode

/-- A header parser that accepts any input as a zero-column header,
used to instantiate the C10 theorem. -/
def zeroColParse : HeaderParse := fun _ => .ok ([], 0)

@[simp] theorem flatData_nil : flatData [] = [] := rfl

@[simp] theorem flatData_cons (c : Chunk) (cs : List Chunk) :
    flatData (c :: cs) = c.data ++ flatData cs := by
  simp [flatData]

/-! ## Claim theorems -/

/-- C7: if the response future resolves to an error, the raw cursor
still transitions from `Waiting` to `Loading` with an empty,
already-terminated chunk source and zero counters; the error is
returned once, and every subsequent `next()` returns end-of-stream. -/
theorem c7_future_error_fused (p : HeaderParse) (e : Error) (v : Bool)
    (m : Option RowMetadata) :
    RawCursor.next p ⟨.waiting (.error e) v, m⟩ = (.error e, ⟨.loading [] 0 0, m⟩) ∧
    RawCursor.next p ⟨.loading [] 0 0, m⟩ = (.ok none, ⟨.loading [] 0 0, m⟩) ∧
    RawCursorState.receivedBytes (.loading [] 0 0) = 0 ∧
    RawCursorState.decodedBytes (.loading [] 0 0) = 0 :=
  ⟨rfl, rfl, rfl, rfl⟩

/-- C2: when `RowCursor::next` reaches end-of-stream (the raw cursor is
exhausted) and the buffered bytes cannot yet be decoded, it returns
`NotEnoughData` exactly when the buffer still holds unconsumed bytes,
and end-of-results (no row, no error) when the buffer is empty; the
buffer is left intact either way. -/
theorem c2_end_of_stream {T : Type} (decodeV : RowMetadata → RowDecode T)
    (decodePlain : RowDecode T) (vm : Option RowMetadata) (bytes : List Nat)
    (n d : Nat) (h : tryDecode decodeV decodePlain vm bytes = .needMore) :
    RowCursor.next decodeV decodePlain ⟨.loading [] n d, bytes, vm⟩ =
      (if bytes.isEmpty then .ok none else .error .notEnoughData,
       ⟨.loading [] n d, bytes, vm⟩) := by
  simp only [RowCursor.next, rowLoop, h]
  by_cases hb : bytes.isEmpty <;> simp [hb]

/-- C2 witness. -/
theorem c2_witness :
    tryDecode demoDecodeV demoDecode none [5] = .needMore ∧
    RowCursor.next demoDecodeV demoDecode ⟨.loading [] 0 0, [5], none⟩ =
      (if ([5] : List Nat).isEmpty then .ok none else .error .notEnoughData,
       ⟨.loading [] 0 0, [5], none⟩) :=
  ⟨by decide, c2_end_of_stream demoDecodeV demoDecode none [5] 0 0 (by decide)⟩

/-- C3: a parse or decode attempt failing with the internal "not enough
data" signal leaves the unconsumed buffer untouched: (a) the row decode
loop retries on exactly the old bytes extended by the next chunk —
nothing dropped, same logical start; (b) the consumed length is
committed only on a successful decode; (c) likewise, the header
discovery loop retries on the old accumulation extended by the next
chunk. -/
theorem c3_retry_preserves_buffer {T : Type} (decodeV : RowMetadata → RowDecode T)
    (decodePlain : RowDecode T) (p : HeaderParse) (vm : Option RowMetadata)
    (bytes acc : List Nat) (c : Chunk) (items rest : List StreamItem)
    (n d k : Nat) (v : T) (remaining : Nat) :
    (tryDecode decodeV decodePlain vm bytes = .needMore →
      rowLoop decodeV decodePlain vm bytes (.ok c :: rest) n d =
        rowLoop decodeV decodePlain vm (bytes ++ c.data) rest
          (n + c.netSize) (d + c.data.length)) ∧
    (tryDecode decodeV decodePlain vm bytes = .row v remaining →
      RowCursor.next decodeV decodePlain ⟨.loading items n d, bytes, vm⟩ =
        (.ok (some v), ⟨.loading items n d, commitBuf bytes remaining, vm⟩)) ∧
    (p (acc ++ c.data) = .error (.notEnoughData k) →
      parseRowMetadataGo p acc n d (.ok c :: rest) =
        parseRowMetadataGo p (acc ++ c.data)
          (n + c.netSize) (d + c.data.length) rest) := by
  refine ⟨fun h => ?_, fun h => ?_, fun h => ?_⟩
  · simp only [rowLoop, h]
  · simp only [RowCursor.next]
    cases items with
    | nil => simp only [rowLoop, h]
    | cons i is => cases i <;> simp only [rowLoop, h]
  · simp only [parseRowMetadataGo, h]

/-- C3 witness. -/
theorem c3_witness :
    rowLoop demoDecodeV demoDecode none [5] [.ok ⟨[6], 1⟩] 0 0 =
      rowLoop demoDecodeV demoDecode none ([5] ++ [6]) [] (0 + 1) (0 + 1) ∧
    RowCursor.next demoDecodeV demoDecode ⟨.loading [] 0 0, [5, 6], none⟩ =
      (.ok (some 11), ⟨.loading [] 0 0, commitBuf [5, 6] 0, none⟩) ∧
    parseRowMetadataGo demoParse [] 0 0 [.ok ⟨[7], 1⟩] =
      parseRowMetadataGo demoParse ([] ++ [7]) (0 + 1) (0 + 1) [] :=
  ⟨(c3_retry_preserves_buffer demoDecodeV demoDecode demoParse none [5] []
      ⟨[6], 1⟩ [] [] 0 0 1 11 0).1 (by decide),
   (c3_retry_preserves_buffer demoDecodeV demoDecode demoParse none [5, 6] []
      ⟨[6], 1⟩ [] [] 0 0 1 11 0).2.1 (by decide),
   (c3_retry_preserves_buffer demoDecodeV demoDecode demoParse none [5] []
      ⟨[7], 1⟩ [] [] 0 0 1 11 0).2.2 (by decide)⟩

/-- C8 counterexample: after a fatal row decode error has been returned
once, a subsequent call to `next()` does *not* behave as if the cursor
were terminated: the decode is re-attempted on the unchanged buffer and
the same fatal error is returned again (a terminated cursor would have
returned end-of-results or, with leftover bytes, `NotEnoughData`). -/
theorem c8_counterexample :
    (RowCursor.next demoDecodeV boomDecode ⟨.loading [] 0 0, [0], none⟩).1 =
      .error (.custom "boom") ∧
    (RowCursor.next demoDecodeV boomDecode
        (RowCursor.next demoDecodeV boomDecode ⟨.loading [] 0 0, [0], none⟩).2).1 =
      .error (.custom "boom") ∧
    (RowCursor.next demoDecodeV boomDecode
        (RowCursor.next demoDecodeV boomDecode ⟨.loading [] 0 0, [0], none⟩).2).1 ≠
      .ok none ∧
    (RowCursor.next demoDecodeV boomDecode
        (RowCursor.next demoDecodeV boomDecode ⟨.loading [] 0 0, [0], none⟩).2).1 ≠
      .error .notEnoughData := by
  decide

/-- C8 (amended): after a response-future failure the raw cursor is
fused — the error is returned once and every subsequent call returns
end-of-results without re-polling the failed future; after a fatal row
decode error the cursor state is left entirely unchanged, so subsequent
calls deterministically re-attempt the decode and return the same error
again (no panic, but not terminated behavior). -/
theorem c8_amended {T : Type} (decodeV : RowMetadata → RowDecode T)
    (decodePlain : RowDecode T) (vm : Option RowMetadata) (bytes : List Nat)
    (items : List StreamItem) (n d : Nat) (e e0 : Error) (fut : Except Error (List StreamItem)) :
    (tryDecode decodeV decodePlain vm bytes = .fatal e →
      RowCursor.next decodeV decodePlain ⟨.loading items n d, bytes, vm⟩ =
        (.error e, ⟨.loading items n d, bytes, vm⟩)) ∧
    (fut = .error e0 →
      RowCursor.next decodeV decodePlain ⟨.waiting fut false, [], vm⟩ =
        (.error e0, ⟨.loading [] 0 0, [], vm⟩)) ∧
    RowCursor.next decodeV decodePlain ⟨.loading [] 0 0, [], vm⟩ =
      (.ok none, ⟨.loading [] 0 0, [], vm⟩) := by
  refine ⟨fun h => ?_, fun h => ?_, ?_⟩
  · simp only [RowCursor.next]
    cases items with
    | nil => simp only [rowLoop, h]
    | cons i is => cases i <;> simp only [rowLoop, h]
  · subst h
    simp only [RowCursor.next, tryDecode, List.isEmpty_nil, if_true]
  · simp only [RowCursor.next, rowLoop, tryDecode, List.isEmpty_nil, if_true]

/-- C8 (amended) witness. -/
theorem c8_amended_witness :
    RowCursor.next demoDecodeV boomDecode ⟨.loading [] 0 0, [0], none⟩ =
      (.error (.custom "boom"), ⟨.loading [] 0 0, [0], none⟩) ∧
    RowCursor.next demoDecodeV boomDecode
        ⟨.waiting (.error (.custom "net")) false, [], none⟩ =
      (.error (.custom "net"), ⟨.loading [] 0 0, [], none⟩) :=
  ⟨(c8_amended demoDecodeV boomDecode none [0] [] 0 0 (.custom "boom")
      (.custom "net") (.error (.custom "net"))).1 (by decide),
   (c8_amended demoDecodeV boomDecode none [0] [] 0 0 (.custom "boom")
      (.custom "net") (.error (.custom "net"))).2.1 rfl⟩

/-- C10: a header that parses successfully but declares zero columns is
rejected by the row cursor's validating constructor as a hard
`BadResponse` error, while the raw cursor's header-discovery loop
accepts it without any special case and builds metadata from the empty
column list. -/
theorem c10_zero_columns_inconsistency (T : Type) (p : HeaderParse)
    (bytes : List Nat) (c : Chunk) (rest : List StreamItem) (n d remaining : Nat)
    (h : p (bytes ++ c.data) = .ok ([], remaining)) :
    rowNewLoop T p bytes n d (.ok c :: rest) =
      .error (.badResponse "Expected at least one column in the header") ∧
    parseRowMetadataGo p bytes n d (.ok c :: rest) =
      .ok (⟨RowMetadata.newForCursor [], n + c.netSize, d + c.data.length,
            if remaining > 0 then
              some ((bytes ++ c.data).drop ((bytes ++ c.data).length - remaining))
            else none⟩, rest) := by
  constructor
  · simp only [rowNewLoop, h, List.isEmpty_nil, if_true]
  · simp only [parseRowMetadataGo, h]

/-- C10 witness. -/
theorem c10_witness :
    rowNewLoop Nat zeroColParse [] 0 0 [.ok ⟨[1], 1⟩] =
      .error (.badResponse "Expected at least one column in the header") ∧
    parseRowMetadataGo zeroColParse [] 0 0 [.ok ⟨[1], 1⟩] =
      .ok (⟨RowMetadata.newForCursor [], 0 + 1, 0 + 1,
            if 0 > 0 then
              some ((([] : List Nat) ++ [1]).drop ((([] : List Nat) ++ [1]).length - 0))
            else none⟩, []) :=
  c10_zero_columns_inconsistency Nat zeroColParse [] ⟨[1], 1⟩ [] 0 0 0 (by decide)

theorem rowLoop_counters_le {T : Type} (decodeV : RowMetadata → RowDecode T)
    (decodePlain : RowDecode T) (vm : Option RowMetadata) :
    ∀ (items : List StreamItem) (bytes : List Nat) (n d : Nat),
      n ≤ (rowLoop decodeV decodePlain vm bytes items n d).2.receivedBytes ∧
      d ≤ (rowLoop decodeV decodePlain vm bytes items n d).2.decodedBytes := by
  intro items
  induction items with
  | nil =>
    intro bytes n d
    cases h : tryDecode decodeV decodePlain vm bytes with
    | row v r =>
      simp [rowLoop, h, RowCursor.receivedBytes, RowCursor.decodedBytes,
        RawCursorState.receivedBytes, RawCursorState.decodedBytes]
    | needMore =>
      simp only [rowLoop, h]
      split <;>
        simp [RowCursor.receivedBytes, RowCursor.decodedBytes,
          RawCursorState.receivedBytes, RawCursorState.decodedBytes]
    | fatal e =>
      simp [rowLoop, h, RowCursor.receivedBytes, RowCursor.decodedBytes,
        RawCursorState.receivedBytes, RawCursorState.decodedBytes]
  | cons i rest ih =>
    intro bytes n d
    cases h : tryDecode decodeV decodePlain vm bytes with
    | row v r =>
      cases i <;>
        simp [rowLoop, h, RowCursor.receivedBytes, RowCursor.decodedBytes,
          RawCursorState.receivedBytes, RawCursorState.decodedBytes]
    | needMore =>
      cases i with
      | error e =>
        simp [rowLoop, h, RowCursor.receivedBytes, RowCursor.decodedBytes,
          RawCursorState.receivedBytes, RawCursorState.decodedBytes]
      | ok c =>
        have hrec := ih (bytes ++ c.data) (n + c.netSize) (d + c.data.length)
        simp only [rowLoop, h]
        exact ⟨le_trans (Nat.le_add_right n c.netSize) hrec.1,
               le_trans (Nat.le_add_right d c.data.length) hrec.2⟩
    | fatal e =>
      cases i <;>
        simp [rowLoop, h, RowCursor.receivedBytes, RowCursor.decodedBytes,
          RawCursorState.receivedBytes, RawCursorState.decodedBytes]

/-- C4: across any single call to `RowCursor::next`, the counters
`received_bytes()` and `decoded_bytes()` are non-decreasing: their
values after the call are at least their values before it. -/
theorem c4_counters_monotone {T : Type} (decodeV : RowMetadata → RowDecode T)
    (decodePlain : RowDecode T) (cur : RowCursor T) :
    cur.receivedBytes ≤ (RowCursor.next decodeV decodePlain cur).2.receivedBytes ∧
    cur.decodedBytes ≤ (RowCursor.next decodeV decodePlain cur).2.decodedBytes := by
  obtain ⟨raw, bytes, vm⟩ := cur
  cases raw with
  | loading items n d =>
    simpa [RowCursor.next, RowCursor.receivedBytes, RowCursor.decodedBytes,
      RawCursorState.receivedBytes, RawCursorState.decodedBytes] using
      rowLoop_counters_le decodeV decodePlain vm items bytes n d
  | waiting fut v =>
    constructor <;>
    · simp only [RowCursor.receivedBytes, RowCursor.decodedBytes,
        RawCursorState.receivedBytes, RawCursorState.decodedBytes]
      exact Nat.zero_le _

theorem parseGo_all_ned (p : HeaderParse) :
    ∀ (cs : List Chunk) (acc : List Nat) (n d : Nat),
      (∀ k, 1 ≤ k → k ≤ cs.length →
        ∃ m, p (acc ++ flatData (cs.take k)) = .error (.notEnoughData m)) →
      parseRowMetadataGo p acc n d (cs.map .ok) =
        .error (.badResponse "Could not read columns header") := by
  intro cs
  induction cs with
  | nil => intro acc n d _; rfl
  | cons c cs ih =>
    intro acc n d h
    obtain ⟨m, hm⟩ := h 1 (by omega) (by simp)
    simp only [List.take_succ_cons, List.take_zero, flatData_cons, flatData_nil,
      List.append_nil] at hm
    simp only [List.map_cons, parseRowMetadataGo, hm]
    apply ih
    intro k hk1 hk2
    obtain ⟨m2, hm2⟩ := h (k + 1) (by omega) (by simp only [List.length_cons]; omega)
    refine ⟨m2, ?_⟩
    simpa [List.take_succ_cons, List.append_assoc] using hm2

theorem rowNew_all_ned (T : Type) (p : HeaderParse) :
    ∀ (cs : List Chunk) (acc : List Nat) (n d : Nat),
      (∀ k, 1 ≤ k → k ≤ cs.length →
        ∃ m, p (acc ++ flatData (cs.take k)) = .error (.notEnoughData m)) →
      rowNewLoop T p acc n d (cs.map .ok) =
        .error (.badResponse "Could not read columns header") := by
  intro cs
  induction cs with
  | nil => intro acc n d _; rfl
  | cons c cs ih =>
    intro acc n d h
    obtain ⟨m, hm⟩ := h 1 (by omega) (by simp)
    simp only [List.take_succ_cons, List.take_zero, flatData_cons, flatData_nil,
      List.append_nil] at hm
    simp only [List.map_cons, rowNewLoop, hm]
    apply ih
    intro k hk1 hk2
    obtain ⟨m2, hm2⟩ := h (k + 1) (by omega) (by simp only [List.length_cons]; omega)
    refine ⟨m2, ?_⟩
    simpa [List.take_succ_cons, List.append_assoc] using hm2

/-- C5: if the chunk stream ends before a complete column header has
been parsed (every accumulated prefix is "not enough data"), header
discovery fails with `BadResponse "Could not read columns header"`, in
both the raw cursor's discovery loop and the row cursor's validating
constructor. -/
theorem c5_truncated_header (T : Type) (p : HeaderParse) (cs : List Chunk)
    (h : ∀ k, 1 ≤ k → k ≤ cs.length →
      ∃ m, p (flatData (cs.take k)) = .error (.notEnoughData m)) :
    parseRowMetadata p (cs.map .ok) =
      .error (.badResponse "Could not read columns header") ∧
    rowNewLoop T p [] 0 0 (cs.map .ok) =
      .error (.badResponse "Could not read columns header") := by
  constructor
  · exact parseGo_all_ned p cs [] 0 0 (by simpa using h)
  · exact rowNew_all_ned T p cs [] 0 0 (by simpa using h)

/-- C5 witness. -/
theorem c5_witness :
    parseRowMetadata demoParse [.ok ⟨[7], 1⟩] =
      .error (.badResponse "Could not read columns header") ∧
    rowNewLoop Nat demoParse [] 0 0 [.ok ⟨[7], 1⟩] =
      .error (.badResponse "Could not read columns header") :=
  c5_truncated_header Nat demoParse [⟨[7], 1⟩] (by
    intro k h1 h2
    have hl : List.length [Chunk.mk [7] 1] = 1 := rfl
    rw [hl] at h2
    have hk : k = 1 := le_antisymm h2 h1
    subst hk
    exact ⟨1, rfl⟩)

theorem parseGo_fail (p : HeaderParse) :
    ∀ (cs : List Chunk) (j : Nat) (acc : List Nat) (n d : Nat) (e : TypesErr),
      1 ≤ j → j ≤ cs.length →
      (∀ k, 1 ≤ k → k < j →
        ∃ m, p (acc ++ flatData (cs.take k)) = .error (.notEnoughData m)) →
      p (acc ++ flatData (cs.take j)) = .error e →
      (∀ m, e ≠ .notEnoughData m) →
      parseRowMetadataGo p acc n d (cs.map .ok) = .error (.invalidColumnsHeader e) := by
  intro cs
  induction cs with
  | nil => intro j acc n d e hj1 hj2 _ _ _; simp at hj2; omega
  | cons c cs ih =>
    intro j acc n d e hj1 hj2 hk hfail hne
    match j, hj1 with
    | 1, _ =>
      simp only [List.take_succ_cons, List.take_zero, flatData_cons, flatData_nil,
        List.append_nil] at hfail
      cases e with
      | notEnoughData m => exact absurd rfl (hne m)
      | other msg => simp only [List.map_cons, parseRowMetadataGo, hfail]
    | (j' + 2), _ =>
      obtain ⟨m, hm⟩ := hk 1 (by omega) (by omega)
      simp only [List.take_succ_cons, List.take_zero, flatData_cons, flatData_nil,
        List.append_nil] at hm
      simp only [List.map_cons, parseRowMetadataGo, hm]
      apply ih (j' + 1) (acc ++ c.data) _ _ e (by omega)
        (by simp only [List.length_cons] at hj2; omega)
      · intro k hk1 hk2
        obtain ⟨m2, hm2⟩ := hk (k + 1) (by omega) (by omega)
        refine ⟨m2, ?_⟩
        simpa [List.take_succ_cons, List.append_assoc] using hm2
      · simpa [List.take_succ_cons, List.append_assoc] using hfail
      · exact hne

theorem rowNew_fail (T : Type) (p : HeaderParse) :
    ∀ (cs : List Chunk) (j : Nat) (acc : List Nat) (n d : Nat) (e : TypesErr),
      1 ≤ j → j ≤ cs.length →
      (∀ k, 1 ≤ k → k < j →
        ∃ m, p (acc ++ flatData (cs.take k)) = .error (.notEnoughData m)) →
      p (acc ++ flatData (cs.take j)) = .error e →
      (∀ m, e ≠ .notEnoughData m) →
      rowNewLoop T p acc n d (cs.map .ok) = .error (.invalidColumnsHeader e) := by
  intro cs
  induction cs with
  | nil => intro j acc n d e hj1 hj2 _ _ _; simp at hj2; omega
  | cons c cs ih =>
    intro j acc n d e hj1 hj2 hk hfail hne
    match j, hj1 with
    | 1, _ =>
      simp only [List.take_succ_cons, List.take_zero, flatData_cons, flatData_nil,
        List.append_nil] at hfail
      cases e with
      | notEnoughData m => exact absurd rfl (hne m)
      | other msg => simp only [List.map_cons, rowNewLoop, hfail]
    | (j' + 2), _ =>
      obtain ⟨m, hm⟩ := hk 1 (by omega) (by omega)
      simp only [List.take_succ_cons, List.take_zero, flatData_cons, flatData_nil,
        List.append_nil] at hm
      simp only [List.map_cons, rowNewLoop, hm]
      apply ih (j' + 1) (acc ++ c.data) _ _ e (by omega)
        (by simp only [List.length_cons] at hj2; omega)
      · intro k hk1 hk2
        obtain ⟨m2, hm2⟩ := hk (k + 1) (by omega) (by omega)
        refine ⟨m2, ?_⟩
        simpa [List.take_succ_cons, List.append_assoc] using hm2
      · simpa [List.take_succ_cons, List.append_assoc] using hfail
      · exact hne

/-- C6: during header discovery, a header parse failure other than "not
enough data" is fatal and non-retryable: after any number of
"not enough data" retries on the growing concatenation, the first other
parse failure is immediately returned as `InvalidColumnsHeader` wrapping
the underlying structural error — in both the raw cursor's discovery
loop and the row cursor's validating constructor. -/
theorem c6_malformed_header (T : Type) (p : HeaderParse) (cs : List Chunk)
    (j : Nat) (e : TypesErr) (hj1 : 1 ≤ j) (hj2 : j ≤ cs.length)
    (hk : ∀ k, 1 ≤ k → k < j →
      ∃ m, p (flatData (cs.take k)) = .error (.notEnoughData m))
    (hfail : p (flatData (cs.take j)) = .error e)
    (hne : ∀ m, e ≠ .notEnoughData m) :
    parseRowMetadata p (cs.map .ok) = .error (.invalidColumnsHeader e) ∧
    rowNewLoop T p [] 0 0 (cs.map .ok) = .error (.invalidColumnsHeader e) := by
  constructor
  · exact parseGo_fail p cs j [] 0 0 e hj1 hj2 (by simpa using hk) (by simpa using hfail) hne
  · exact rowNew_fail T p cs j [] 0 0 e hj1 hj2 (by simpa using hk) (by simpa using hfail) hne

/-- C6 witness. -/
theorem c6_witness :
    parseRowMetadata demoParse [.ok ⟨[7], 1⟩, .ok ⟨[8, 0], 2⟩] =
      .error (.invalidColumnsHeader (.other "bad magic")) ∧
    rowNewLoop Nat demoParse [] 0 0 [.ok ⟨[7], 1⟩, .ok ⟨[8, 0], 2⟩] =
      .error (.invalidColumnsHeader (.other "bad magic")) :=
  c6_malformed_header Nat demoParse [⟨[7], 1⟩, ⟨[8, 0], 2⟩] 2 (.other "bad magic")
    (by omega) (by simp)
    (by
      intro k h1 h2
      have hk : k = 1 := by omega
      subst hk
      exact ⟨1, rfl⟩)
    rfl
    (fun m h => TypesErr.noConfusion h)

theorem rowNextPoll_row {T : Type} (decodeV : RowMetadata → RowDecode T)
    (decodePlain : RowDecode T) (cur : RowCursorE T) (evs : List StreamEv)
    (v : T) (r : Nat)
    (htd : tryDecode decodeV decodePlain cur.vmeta cur.bytes = .row v r) :
    rowNextPoll decodeV decodePlain cur evs =
      (.done (.ok (some v)), { cur with bytes := commitBuf cur.bytes r }, evs) := by
  cases evs with
  | nil => simp only [rowNextPoll, htd]
  | cons ev rest => cases ev <;> simp only [rowNextPoll, htd]

theorem rowNextPoll_fatal {T : Type} (decodeV : RowMetadata → RowDecode T)
    (decodePlain : RowDecode T) (cur : RowCursorE T) (evs : List StreamEv) (e : Error)
    (htd : tryDecode decodeV decodePlain cur.vmeta cur.bytes = .fatal e) :
    rowNextPoll decodeV decodePlain cur evs = (.done (.error e), cur, evs) := by
  cases evs with
  | nil => simp only [rowNextPoll, htd]
  | cons ev rest => cases ev <;> simp only [rowNextPoll, htd]

theorem rowNextPoll_pending {T : Type} (decodeV : RowMetadata → RowDecode T)
    (decodePlain : RowDecode T) (cur : RowCursorE T)
    (htd : tryDecode decodeV decodePlain cur.vmeta cur.bytes = .needMore) :
    rowNextPoll decodeV decodePlain cur [] = (.pending, cur, []) := by
  simp only [rowNextPoll, htd]

theorem rowNextPoll_eos {T : Type} (decodeV : RowMetadata → RowDecode T)
    (decodePlain : RowDecode T) (cur : RowCursorE T) (rest : List StreamEv)
    (htd : tryDecode decodeV decodePlain cur.vmeta cur.bytes = .needMore) :
    rowNextPoll decodeV decodePlain cur (.eos :: rest) =
      if cur.bytes.isEmpty then (.done (.ok none), cur, rest)
      else (.done (.error .notEnoughData), cur, rest) := by
  simp only [rowNextPoll, htd]

theorem rowNextPoll_failed {T : Type} (decodeV : RowMetadata → RowDecode T)
    (decodePlain : RowDecode T) (cur : RowCursorE T) (rest : List StreamEv) (e : Error)
    (htd : tryDecode decodeV decodePlain cur.vmeta cur.bytes = .needMore) :
    rowNextPoll decodeV decodePlain cur (.failed e :: rest) =
      (.done (.error e), cur, rest) := by
  simp only [rowNextPoll, htd]

theorem rowNextPoll_chunk {T : Type} (decodeV : RowMetadata → RowDecode T)
    (decodePlain : RowDecode T) (cur : RowCursorE T) (rest : List StreamEv) (c : Chunk)
    (htd : tryDecode decodeV decodePlain cur.vmeta cur.bytes = .needMore) :
    rowNextPoll decodeV decodePlain cur (.chunk c :: rest) =
      rowNextPoll decodeV decodePlain
        { cur with
            bytes := cur.bytes ++ c.data
            netSize := cur.netSize + c.netSize
            dataSize := cur.dataSize + c.data.length } rest := by
  simp only [rowNextPoll, htd]

/-- C9: `RowCursor::next` is cancellation safe. If an invocation
suspends waiting for a chunk (outcome `pending`), then (1) re-invoking
on the state left behind, with the events that arrive later, behaves
exactly as the single uninterrupted invocation on all events would
have — the abandoned wait is unobservable; (2) the metadata is
untouched; (3) the state differs from the entry state only by the
chunks that were *fully* delivered before the suspension, each appended
whole to the buffer and accounted in the counters — no bytes are
duplicated or dropped, and no partial mutation occurs at the suspension
point. -/
theorem c9_cancellation_safe {T : Type} (decodeV : RowMetadata → RowDecode T)
    (decodePlain : RowDecode T) (cur st : RowCursorE T) (evs evsOut : List StreamEv)
    (h : rowNextPoll decodeV decodePlain cur evs = (.pending, st, evsOut)) :
    (∀ evs2, rowNextPoll decodeV decodePlain cur (evs ++ evs2) =
      rowNextPoll decodeV decodePlain st evs2) ∧
    st.vmeta = cur.vmeta ∧ evsOut = [] ∧
    ∃ cs : List Chunk, evs = cs.map .chunk ∧
      st.bytes = cur.bytes ++ flatData cs ∧
      st.netSize = cur.netSize + (cs.map Chunk.netSize).sum ∧
      st.dataSize = cur.dataSize + (cs.map fun c => c.data.length).sum := by
  induction evs generalizing cur with
  | nil =>
    cases htd : tryDecode decodeV decodePlain cur.vmeta cur.bytes with
    | row v r => rw [rowNextPoll_row decodeV decodePlain cur [] v r htd] at h; simp at h
    | fatal e => rw [rowNextPoll_fatal decodeV decodePlain cur [] e htd] at h; simp at h
    | needMore =>
      rw [rowNextPoll_pending decodeV decodePlain cur htd] at h
      simp only [Prod.mk.injEq] at h
      obtain ⟨-, rfl, rfl⟩ := h
      exact ⟨fun evs2 => rfl, rfl, rfl, [], by simp⟩
  | cons ev rest ih =>
    cases htd : tryDecode decodeV decodePlain cur.vmeta cur.bytes with
    | row v r =>
      rw [rowNextPoll_row decodeV decodePlain cur (ev :: rest) v r htd] at h; simp at h
    | fatal e =>
      rw [rowNextPoll_fatal decodeV decodePlain cur (ev :: rest) e htd] at h; simp at h
    | needMore =>
      cases ev with
      | eos =>
        rw [rowNextPoll_eos decodeV decodePlain cur rest htd] at h
        by_cases hb : cur.bytes.isEmpty <;> simp [hb] at h
      | failed e =>
        rw [rowNextPoll_failed decodeV decodePlain cur rest e htd] at h; simp at h
      | chunk c =>
        rw [rowNextPoll_chunk decodeV decodePlain cur rest c htd] at h
        obtain ⟨hres, hvm, hout, cs, hevs, hbytes, hnet, hdata⟩ :=
          ih { cur with
                bytes := cur.bytes ++ c.data
                netSize := cur.netSize + c.netSize
                dataSize := cur.dataSize + c.data.length } h
        refine ⟨fun evs2 => ?_, hvm, hout, c :: cs, ?_, ?_, ?_, ?_⟩
        · rw [List.cons_append, rowNextPoll_chunk decodeV decodePlain cur (rest ++ evs2) c htd]
          exact hres evs2
        · simp [hevs]
        · simpa [List.append_assoc] using hbytes
        · simpa [Nat.add_assoc] using hnet
        · simpa [Nat.add_assoc] using hdata

/-- C9 witness: a cursor whose buffered byte cannot yet be decoded
suspends with its state fully unchanged, and retrying with the events
that arrive later equals the uninterrupted run. -/
theorem c9_witness :
    rowNextPoll demoDecodeV demoDecode ⟨0, 0, [5], none⟩ [] =
      (.pending, ⟨0, 0, [5], none⟩, []) ∧
    rowNextPoll demoDecodeV demoDecode ⟨0, 0, [5], none⟩ ([] ++ [.eos]) =
      rowNextPoll demoDecodeV demoDecode ⟨0, 0, [5], none⟩ [.eos] :=
  ⟨by decide,
   (c9_cancellation_safe demoDecodeV demoDecode ⟨0, 0, [5], none⟩ ⟨0, 0, [5], none⟩
      [] [] (by decide)).1 [.eos]⟩

theorem headerLoops_valid (T : Type) (p : HeaderParse) (hdr : List Nat)
    (cols : List Column) (hv : ValidHeader p hdr cols) (hcols : cols ≠ []) :
    ∀ (cs : List Chunk) (acc : List Nat) (n d : Nat),
      acc <+: hdr → (acc.length < hdr.length ∨ acc = []) →
      hdr <+: (acc ++ flatData cs) → cs ≠ [] →
      ∃ (rest : List Chunk) (n2 d2 : Nat) (t : List Nat),
        parseRowMetadataGo p acc n d (cs.map .ok) =
          .ok (⟨RowMetadata.newForCursor cols, n2, d2,
                if t.length > 0 then some t else none⟩, rest.map .ok) ∧
        rowNewLoop T p acc n d (cs.map .ok) =
          .ok ⟨.loading (rest.map .ok) n2 d2, t, some (RowMetadata.new cols)⟩ ∧
        t ++ flatData rest = (acc ++ flatData cs).drop hdr.length := by
  intro cs
  induction cs with
  | nil => intro acc n d _ _ _ hne; exact absurd rfl hne
  | cons c cs ih =>
    intro acc n d hpre hproper hbig _
    have hbig' : hdr <+: ((acc ++ c.data) ++ flatData cs) := by
      simpa [List.append_assoc] using hbig
    have hac : (acc ++ c.data) <+: ((acc ++ c.data) ++ flatData cs) := ⟨flatData cs, rfl⟩
    by_cases hlen : hdr.length ≤ (acc ++ c.data).length
    · have hhp : hdr <+: (acc ++ c.data) :=
        List.prefix_of_prefix_length_le hbig' hac hlen
      obtain ⟨t, ht⟩ := hhp
      have hp : p (acc ++ c.data) = .ok (cols, t.length) := by
        rw [← ht]; exact hv.1 t
      have hdrop : (acc ++ c.data).drop ((acc ++ c.data).length - t.length) = t := by
        rw [← ht, List.length_append, Nat.add_sub_cancel, List.drop_left]
      have hce : cols.isEmpty = false := by
        cases cols with
        | nil => exact absurd rfl hcols
        | cons a as => rfl
      refine ⟨cs, n + c.netSize, d + c.data.length, t, ?_, ?_, ?_⟩
      · simp only [List.map_cons, parseRowMetadataGo, hp, hdrop]
      · simp only [List.map_cons, rowNewLoop, hp, hce, Bool.false_eq_true, if_false,
          commitBuf, hdrop]
      · have hrw : acc ++ flatData (c :: cs) = hdr ++ (t ++ flatData cs) := by
          rw [flatData_cons, ← List.append_assoc, ← ht, List.append_assoc]
        rw [hrw, List.drop_left]
    · push_neg at hlen
      have hpre' : (acc ++ c.data) <+: hdr :=
        List.prefix_of_prefix_length_le hac hbig' (le_of_lt hlen)
      obtain ⟨m, hm⟩ := hv.2 (acc ++ c.data) hpre' hlen
      have hcs_ne : cs ≠ [] := by
        intro hcs0
        subst hcs0
        have hlb := hbig'.length_le
        simp only [flatData_nil, List.append_nil] at hlb
        omega
      obtain ⟨rest, n2, d2, t, h1, h2, h3⟩ :=
        ih (acc ++ c.data) (n + c.netSize) (d + c.data.length) hpre'
          (Or.inl hlen) hbig' hcs_ne
      refine ⟨rest, n2, d2, t, ?_, ?_, ?_⟩
      · simp only [List.map_cons, parseRowMetadataGo, hm]; exact h1
      · simp only [List.map_cons, rowNewLoop, hm]; exact h2
      · rw [show acc ++ flatData (c :: cs) = (acc ++ c.data) ++ flatData cs by
          rw [flatData_cons, List.append_assoc]]
        exact h3

/-- C1: for every valid header byte sequence split arbitrarily across
N ≥ 1 chunks, header discovery succeeds with the same column metadata
regardless of the split points, in both the raw cursor's discovery loop
and the row cursor's validating constructor; the trailing bytes of the
final header-containing chunk become the first payload chunk, and
together with the untouched rest of the stream they are exactly the
bytes following the header — no payload byte is lost or duplicated at
the header/payload boundary. -/
theorem c1_header_split_invariance (T : Type) (p : HeaderParse) (hdr : List Nat)
    (cols : List Column) (cs : List Chunk) (hv : ValidHeader p hdr cols)
    (hcols : cols ≠ []) (hne : cs ≠ []) (hpre : hdr <+: flatData cs) :
    ∃ (rest : List Chunk) (n2 d2 : Nat) (t : List Nat),
      parseRowMetadata p (cs.map .ok) =
        .ok (⟨RowMetadata.newForCursor cols, n2, d2,
              if t.length > 0 then some t else none⟩, rest.map .ok) ∧
      rowNewLoop T p [] 0 0 (cs.map .ok) =
        .ok ⟨.loading (rest.map .ok) n2 d2, t, some (RowMetadata.new cols)⟩ ∧
      t ++ flatData rest = (flatData cs).drop hdr.length := by
  have h := headerLoops_valid T p hdr cols hv hcols cs [] 0 0
    List.nil_prefix (Or.inr rfl) (by simpa using hpre) hne
  simpa [parseRowMetadata] using h

/-- C1 witness: the header `[7, 9]` split as `[7] / [9, 5, 5]`, with two
payload bytes trailing in the header-completing chunk. -/
theorem c1_witness :
    ∃ (rest : List Chunk) (n2 d2 : Nat) (t : List Nat),
      parseRowMetadata demoParse ([⟨[7], 1⟩, ⟨[9, 5, 5], 3⟩].map .ok) =
        .ok (⟨RowMetadata.newForCursor [⟨"id", "UInt64"⟩], n2, d2,
              if t.length > 0 then some t else none⟩, rest.map .ok) ∧
      rowNewLoop Nat demoParse [] 0 0 ([⟨[7], 1⟩, ⟨[9, 5, 5], 3⟩].map .ok) =
        .ok ⟨.loading (rest.map .ok) n2 d2, t,
             some (RowMetadata.new [⟨"id", "UInt64"⟩])⟩ ∧
      t ++ flatData rest = (flatData [⟨[7], 1⟩, ⟨[9, 5, 5], 3⟩]).drop [7, 9].length :=
  c1_header_split_invariance Nat demoParse [7, 9] [⟨"id", "UInt64"⟩]
    [⟨[7], 1⟩, ⟨[9, 5, 5], 3⟩]
    ⟨fun rest => rfl,
     by
      intro pre hp hl
      rcases pre with _ | ⟨a, _ | ⟨b, r2⟩⟩
      · exact ⟨2, rfl⟩
      · rcases hp with ⟨t2, ht⟩
        simp only [List.cons_append, List.nil_append, List.cons.injEq] at ht
        obtain ⟨rfl, -⟩ := ht
        exact ⟨1, rfl⟩
      · exfalso
        simp only [List.length_cons, List.length_nil] at hl
        omega⟩
    (by intro h; cases h)
    (by intro h; cases h)
    ⟨[5, 5], rfl⟩

end CHCursor
